import Mathlib

/-!
Shallow embedding of the nnstreamer edge-transport layer
(src/gst/nnstreamer/tensor_query/nnstreamer_edge_internal.c).

Modelling conventions:
* Machine integers are `Nat` carrying the raw bit pattern (an `int64_t` is its
  64-bit two's-complement pattern, so equality of patterns is equality of the
  C values); truncations are explicit `% 2 ^ w`.
* Byte streams are `List Nat` with each byte `< 256`, little-endian host order
  (the wire format performs no byte-order normalization; we fix the LP64
  little-endian layout of the build machines).
* Socket, allocator and callback behaviour is passed in as explicit oracles;
  a function result of `Option.none` at the outermost layer marks undefined
  behaviour (out-of-bounds array access, NULL-pointer dereference) or an
  unmodelled hang, never a normal return.
-/

/-- Modelled from the spec: the fixed maximum buffer count per frame,
`NNS_EDGE_DATA_LIMIT`.  Its defining header (nnstreamer_edge_common.h) is not
among the sources here; the spec only requires a fixed maximum bound on
`buffer_count` and on the `sizes[]`/payload arrays, and 16 is the upstream
value.  No claim below depends on the particular number. -/
def NNS_EDGE_DATA_LIMIT : Nat := 16

/-- Error codes of the edge API (nnstreamer_edge_common.h, referenced from the
source as NNS_EDGE_ERROR_NONE / _INVALID_PARAMETER / _OUT_OF_MEMORY / _IO /
_CONNECTION_FAILURE).  Only their identity matters, never their numeric
values, so an inductive type is a faithful embedding. -/
inductive NnsErr where
  /-- NNS_EDGE_ERROR_NONE -/
  | ok
  /-- NNS_EDGE_ERROR_INVALID_PARAMETER -/
  | invalidParam
  /-- NNS_EDGE_ERROR_OUT_OF_MEMORY -/
  | outOfMemory
  /-- NNS_EDGE_ERROR_IO -/
  | ioError
  /-- NNS_EDGE_ERROR_CONNECTION_FAILURE -/
  | connFailure
deriving DecidableEq, Repr

/-- _NNS_EDGE_CMD_ERROR = 0 (nns_edge_cmd_e). -/
def cmdERROR : Nat := 0

/-- _NNS_EDGE_CMD_TRANSFER_DATA = 1. -/
def cmdTRANSFER_DATA : Nat := 1

/-- _NNS_EDGE_CMD_HOST_INFO = 2. -/
def cmdHOST_INFO : Nat := 2

/-- _NNS_EDGE_CMD_CAPABILITY = 3. -/
def cmdCAPABILITY : Nat := 3

/-- The fixed-size command header `nns_edge_cmd_info_s`: command kind,
64-bit client id, buffer count `num`, and the full
`size_t mem_size[NNS_EDGE_DATA_LIMIT]` array (the header always carries all
`NNS_EDGE_DATA_LIMIT` size slots, whatever `num` is). -/
structure nns_edge_cmd_info_s where
  cmd : Nat
  client_id : Nat
  num : Nat
  mem_size : List Nat
deriving DecidableEq, Repr

/-- `nns_edge_cmd_s`: the header plus the payload buffers.  The C struct keeps
a fixed `void *mem[NNS_EDGE_DATA_LIMIT]` array of which only the first
`info.num` entries are meaningful; we keep exactly those `num` buffers, each a
byte list. -/
structure nns_edge_cmd_s where
  info : nns_edge_cmd_info_s
  mem : List (List Nat)
deriving DecidableEq, Repr

/-- Little-endian byte serialization of a `w`-byte unsigned field. -/
def bytesLE : Nat → Nat → List Nat
  | 0, _ => []
  | w + 1, n => n % 256 :: bytesLE w (n / 256)

/-- Little-endian value of a byte list. -/
def natLE : List Nat → Nat
  | [] => 0
  | b :: bs => b + 256 * natLE bs

/-- Four zero padding bytes: the LP64 layout of `nns_edge_cmd_info_s` pads
after the 4-byte `cmd` enum and after the 4-byte `num` field (the struct is
`memset` to zero by `_nns_edge_cmd_init`). -/
def pad4 : List Nat := bytesLE 4 0

/-- sizeof (nns_edge_cmd_info_s) on the LP64 layout:
4 (cmd) + 4 (pad) + 8 (client_id) + 4 (num) + 4 (pad) + 8 * NNS_EDGE_DATA_LIMIT. -/
def headerSize : Nat := 24 + 8 * NNS_EDGE_DATA_LIMIT

/-- Serialize the `mem_size` array, 8 bytes per entry. -/
def encodeSizes : List Nat → List Nat
  | [] => []
  | s :: ss => bytesLE 8 s ++ encodeSizes ss

/-- The byte image of the header that `_nns_edge_cmd_send` pushes with
`_send_raw_data (socket, &cmd->info, sizeof (nns_edge_cmd_info_s), ...)`. -/
def encode_info (i : nns_edge_cmd_info_s) : List Nat :=
  bytesLE 4 i.cmd ++ pad4 ++ bytesLE 8 i.client_id ++
    bytesLE 4 i.num ++ pad4 ++ encodeSizes i.mem_size

/-- Concatenation of the payload buffers, sent back to back. -/
def flattenBufs : List (List Nat) → List Nat
  | [] => []
  | b :: bs => b ++ flattenBufs bs

/-- The full frame `_nns_edge_cmd_send` writes: the header image followed by
the `num` payload buffers back to back. -/
def encode_cmd (c : nns_edge_cmd_s) : List Nat :=
  encode_info c.info ++ flattenBufs c.mem

/-- Read one `w`-byte little-endian field off the front of a stream,
returning the value and the remaining stream. -/
def takeField (w : Nat) (bs : List Nat) : Nat × List Nat :=
  (natLE (List.take w bs), List.drop w bs)

/-- Read `k` 8-byte size entries off the front of a stream. -/
def readSizes : Nat → List Nat → List Nat × List Nat
  | 0, bs => ([], bs)
  | k + 1, bs =>
    (natLE (List.take 8 bs) :: (readSizes k (List.drop 8 bs)).1,
      (readSizes k (List.drop 8 bs)).2)

/-- Parse the fixed-size header exactly as `_nns_edge_cmd_receive` fills
`cmd->info` from `sizeof (nns_edge_cmd_info_s)` received bytes: field by
field in declaration order, skipping the two 4-byte paddings.  Also returns
the unconsumed remainder of the stream. -/
def decode_info (bs : List Nat) : nns_edge_cmd_info_s × List Nat :=
  ((fun c _q1 cid n _q2 ms => (⟨c.1, cid.1, n.1, ms.1⟩, ms.2))
    (takeField 4 bs)
    (takeField 4 (takeField 4 bs).2)
    (takeField 8 (takeField 4 (takeField 4 bs).2).2)
    (takeField 4 (takeField 8 (takeField 4 (takeField 4 bs).2).2).2)
    (takeField 4 (takeField 4 (takeField 8 (takeField 4 (takeField 4 bs).2).2).2).2)
    (readSizes NNS_EDGE_DATA_LIMIT
      (takeField 4 (takeField 4 (takeField 8 (takeField 4 (takeField 4 bs).2).2).2).2).2))

/-- Read payload buffers of the advertised sizes off the front of a stream,
the pure-stream view of the buffer loop in `_nns_edge_cmd_receive`. -/
def readBufs : List Nat → List Nat → List (List Nat) × List Nat
  | [], bs => ([], bs)
  | s :: ss, bs =>
    (List.take s bs :: (readBufs ss (List.drop s bs)).1,
      (readBufs ss (List.drop s bs)).2)

/-- Decode a full frame from a byte stream: parse the header, then read the
first `num` advertised buffer sizes worth of payload — the behaviour of
`_nns_edge_cmd_receive` over a reliable stream. -/
def decode_cmd (bs : List Nat) : nns_edge_cmd_s :=
  ⟨(decode_info bs).1,
    (readBufs (List.take (decode_info bs).1.num (decode_info bs).1.mem_size)
      (decode_info bs).2).1⟩

/-- Well-formed header: each field fits its wire width and the `mem_size`
array has exactly its declared `NNS_EDGE_DATA_LIMIT` entries. -/
def infoWF (i : nns_edge_cmd_info_s) : Prop :=
  i.cmd < 256 ^ 4 ∧ i.client_id < 256 ^ 8 ∧ i.num < 256 ^ 4 ∧
    i.mem_size.length = NNS_EDGE_DATA_LIMIT ∧ ∀ s ∈ i.mem_size, s < 256 ^ 8

/-- Well-formed frame: well-formed header, `num` within the fixed maximum,
exactly `num` payload buffers, and each buffer's length matching its
advertised size. -/
def cmdWF (c : nns_edge_cmd_s) : Prop :=
  infoWF c.info ∧ c.info.num ≤ NNS_EDGE_DATA_LIMIT ∧
    List.Forall₂ (fun b s => List.length b = s) c.mem
      (List.take c.info.num c.info.mem_size)

instance : DecidablePred infoWF := fun i => by
  unfold infoWF; infer_instance

instance : DecidablePred cmdWF := fun c => by
  unfold cmdWF; infer_instance

/-- `_send_raw_data (socket, data, size, cancellable)`: loop calling
`g_socket_send` until `size` bytes went out.  The transport is an oracle list
of `g_socket_send` return values `rret`: `0` means the peer closed the
connection, a negative value a socket error, a positive value that many bytes
accepted (the socket never accepts more than the `size - bytes_sent` it was
asked for, hence the `min`).  Returns the loop result, the final `bytes_sent`,
and the unconsumed oracle; `Option.none` = the oracle ran dry while bytes
were still pending (the call would block, not modelled). -/
def _send_raw_data (size : Nat) : Nat → List Int → Option (Bool × Nat × List Int)
  | sent, [] => if size ≤ sent then some (true, sent, []) else Option.none
  | sent, r :: rest =>
    if size ≤ sent then some (true, sent, r :: rest)
    else if r = 0 then some (false, sent, rest)
    else if r < 0 then some (false, sent, rest)
    else _send_raw_data size (sent + min r.toNat (size - sent)) rest

/-- The piece loop of `_nns_edge_cmd_send`: one `_send_raw_data` call per
piece size, in order; the first failed piece aborts the whole frame with
NNS_EDGE_ERROR_IO.  Also accumulates the total byte count delivered. -/
def sendPieces : List Nat → List Int → Option (NnsErr × Nat × List Int)
  | [], steps => some (NnsErr.ok, 0, steps)
  | sz :: szs, steps =>
    match _send_raw_data sz 0 steps with
    | Option.none => Option.none
    | some (false, d, rest) => some (NnsErr.ioError, d, rest)
    | some (true, d, rest) =>
      match sendPieces szs rest with
      | Option.none => Option.none
      | some (e, dtail, rest') => some (e, d + dtail, rest')

/-- `_nns_edge_cmd_send (conn, cmd)`: NULL connection is rejected with
NNS_EDGE_ERROR_INVALID_PARAMETER; otherwise the header
(`sizeof (nns_edge_cmd_info_s)` bytes) is written first, then the `num`
buffers of sizes `mem_size[0] .. mem_size[num-1]`, in order. -/
def _nns_edge_cmd_send (conn : Option Unit) (cmd : nns_edge_cmd_s)
    (steps : List Int) : Option (NnsErr × Nat × List Int) :=
  match conn with
  | Option.none => some (NnsErr.invalidParam, 0, steps)
  | some _ =>
    sendPieces (headerSize :: List.take cmd.info.num cmd.info.mem_size) steps

/-- Per-buffer oracle for `_nns_edge_cmd_receive`: for buffer index `n`,
whether `malloc (mem_size[n])` succeeds and whether the subsequent
`_receive_raw_data` into it succeeds. -/
structure RecvOracle where
  allocOk : Nat → Bool
  readOk : Nat → Bool

/-- One memory slot of the fixed `void *mem[NNS_EDGE_DATA_LIMIT]` array:
`Option.none` is a NULL pointer, `some sz` a buffer of `sz` bytes allocated
this call.  The slot list always has length NNS_EDGE_DATA_LIMIT. -/
abbrev MemSlots := List (Option Nat)

/-- The buffer loop of `_nns_edge_cmd_receive`
(`for (n = 0; n < cmd->info.num; n++)`), iterating `k` more times from index
`n`.  Reading `mem_size[n]` or writing `mem[n]` with `n` past the fixed
arrays is out-of-bounds: outer `Option.none`.  On a failed malloc the slot
holds NULL and the loop breaks with NNS_EDGE_ERROR_OUT_OF_MEMORY at bound
`n`; on a failed read the log statement's `n++` makes the cleanup bound
`n + 1`.  Returns (error, cleanup bound, slots). -/
def recvLoop (o : RecvOracle) (sizes : List Nat) :
    Nat → Nat → MemSlots → Option (NnsErr × Nat × MemSlots)
  | n, 0, mem => some (NnsErr.ok, n, mem)
  | n, k + 1, mem =>
    match sizes[n]? with
    | Option.none => Option.none
    | some sz =>
      if o.allocOk n then
        if o.readOk n then recvLoop o sizes (n + 1) k (mem.set n (some sz))
        else some (NnsErr.ioError, n + 1, mem.set n (some sz))
      else some (NnsErr.outOfMemory, n, mem.set n Option.none)

/-- The rollback loop of `_nns_edge_cmd_receive`
(`for (i = 0; i < n; i++) { free (cmd->mem[i]); cmd->mem[i] = NULL; }`). -/
def clearRange : Nat → MemSlots → MemSlots
  | 0, mem => mem
  | i + 1, mem => (clearRange i mem).set i Option.none

/-- Control-flow model of `_nns_edge_cmd_receive (conn, cmd)`: `hdr` is the
header the initial `_receive_raw_data` produced (`Option.none` = that read
failed, NNS_EDGE_ERROR_IO with the caller's `mem` slots untouched), then the
buffer loop runs over `mem0`, and on any loop failure the rollback loop frees
the already-allocated buffers.  There is no check of `info.num` against
NNS_EDGE_DATA_LIMIT anywhere on this path. -/
def _nns_edge_cmd_receive (o : RecvOracle) (hdr : Option nns_edge_cmd_info_s)
    (mem0 : MemSlots) : Option (NnsErr × Option nns_edge_cmd_info_s × MemSlots) :=
  match hdr with
  | Option.none => some (NnsErr.ioError, Option.none, mem0)
  | some info =>
    match recvLoop o info.mem_size 0 info.num mem0 with
    | Option.none => Option.none
    | some (e, nFin, mem) =>
      if e = NnsErr.ok then some (NnsErr.ok, some info, mem)
      else some (e, some info, clearRange nFin mem)

/-- One TCP connection `nns_edge_conn_s`, reduced to the fields
`_nns_edge_close_connection` inspects: the `running` receiver-thread flag and
whether `socket` / `cancellable` are non-NULL. -/
structure nns_edge_conn_s where
  running : Bool
  hasSocket : Bool
  hasCancellable : Bool
deriving DecidableEq, Repr

/-- The observable steps `_nns_edge_close_connection` can take, in the order
it takes them. -/
inductive CloseAct where
  /-- `conn->running = 0` -/
  | clearRunningFlag
  /-- `pthread_join (conn->msg_thread, NULL)` -/
  | joinThread
  /-- `g_cancellable_cancel` — never emitted by this code. -/
  | cancelToken
  /-- `g_socket_close` + `g_object_unref (conn->socket)` -/
  | closeSocket
  /-- `g_object_unref (conn->cancellable)` -/
  | releaseToken
  /-- `g_free (conn->ip); g_free (conn)` -/
  | freeConn
deriving DecidableEq, Repr

/-- `_nns_edge_close_connection (conn)`: NULL connection returns false with
no effect.  Otherwise: clear `running` and join the thread if it was set,
close the socket (on `g_socket_close` failure, modelled by `closeOk = false`,
return false early without releasing anything else), release the
cancellable, free the struct.  No step cancels the cancellable. -/
def _nns_edge_close_connection (closeOk : Bool) :
    Option nns_edge_conn_s → Bool × List CloseAct
  | Option.none => (false, [])
  | some c =>
    (fun t1 =>
      if c.hasSocket then
        if closeOk then
          (true, t1 ++ [CloseAct.closeSocket] ++
            (if c.hasCancellable then [CloseAct.releaseToken] else []) ++
            [CloseAct.freeConn])
        else (false, t1)
      else
        (true, t1 ++
          (if c.hasCancellable then [CloseAct.releaseToken] else []) ++
          [CloseAct.freeConn]))
    (if c.running then [CloseAct.clearRunningFlag, CloseAct.joinThread] else [])

/-- One entry of the connection table, `nns_edge_conn_data_s`: the 64-bit
client id it was created for and the two directional connections, here
abstract tokens. -/
structure nns_edge_conn_data_s where
  id : Nat
  src_conn : Option Nat
  sink_conn : Option Nat
deriving DecidableEq, Repr

/-- The edge handle `nns_edge_handle_s`, reduced to the fields the
connection-table and request/respond paths read: the magic validity marker
and the table (an association list standing for the GHashTable with
`g_direct_hash`/`g_direct_equal`, keyed by `GUINT_TO_POINTER` of the client
id). -/
structure nns_edge_handle_s where
  magicValid : Bool
  client_id : Nat
  conn_table : List (Nat × nns_edge_conn_data_s)
deriving DecidableEq, Repr

/-- `GUINT_TO_POINTER (client_id)`: the hash-table key.  On the LP64 layout
fixed throughout this file, GLib defines the macro as
`((gpointer) (gulong) (u))` with a 64-bit `gulong`, so the `int64_t` client
id reaches the pointer key with its full 64-bit pattern intact (the
`% 2 ^ 64` is the cast to the 64-bit `gulong`, the identity on every int64
bit pattern). -/
def GUINT_TO_POINTER (cid : Nat) : Nat := cid % 2 ^ 64

/-- `g_hash_table_lookup` on the association-list table. -/
def tableLookup : List (Nat × nns_edge_conn_data_s) → Nat →
    Option nns_edge_conn_data_s
  | [], _ => Option.none
  | (k, v) :: t, key => if k = key then some v else tableLookup t key

/-- `g_hash_table_insert`: replaces the value at an existing key, otherwise
adds the pair. -/
def tableInsert : List (Nat × nns_edge_conn_data_s) → Nat →
    nns_edge_conn_data_s → List (Nat × nns_edge_conn_data_s)
  | [], key, v => [(key, v)]
  | (k, w) :: t, key, v =>
    if k = key then (key, v) :: t else (k, w) :: tableInsert t key v

/-- `_nns_edge_get_conn (eh, client_id)`: NULL for an invalid handle, else a
hash lookup keyed by `GUINT_TO_POINTER (client_id)`. -/
def _nns_edge_get_conn (eh : nns_edge_handle_s) (client_id : Nat) :
    Option nns_edge_conn_data_s :=
  if eh.magicValid then tableLookup eh.conn_table (GUINT_TO_POINTER client_id)
  else Option.none

/-- `_nns_edge_add_conn (eh, client_id)`: invalid handle gives NULL; an
existing entry for the key is returned as is; otherwise a
zeroed entry with `id = client_id` is inserted (`allocOk = false` models the
malloc failure, returning NULL).  Returns the entry and the updated handle. -/
def _nns_edge_add_conn (allocOk : Bool) (eh : nns_edge_handle_s)
    (client_id : Nat) : Option (nns_edge_conn_data_s × nns_edge_handle_s) :=
  if eh.magicValid then
    match tableLookup eh.conn_table (GUINT_TO_POINTER client_id) with
    | some d => some (d, eh)
    | Option.none =>
      if allocOk then
        some (⟨client_id, Option.none, Option.none⟩,
          { eh with
            conn_table := tableInsert eh.conn_table (GUINT_TO_POINTER client_id)
              ⟨client_id, Option.none, Option.none⟩ })
      else Option.none
  else Option.none

/-- Key/value coherence of the connection table as the code maintains it:
every stored entry carries in its `id` field exactly the identifier it is
keyed under (`_nns_edge_add_conn` inserts `data` with `data->id = client_id`
under key `GUINT_TO_POINTER (client_id)`, and on LP64 that key is the full
64-bit id). -/
def tableWF (t : List (Nat × nns_edge_conn_data_s)) : Prop :=
  ∀ p ∈ t, p.2.id = p.1

instance : DecidablePred tableWF := fun t => by
  unfold tableWF; infer_instance

/-- Observable steps of the table-update tail of a handshake. -/
inductive HsAct where
  /-- `_nns_edge_close_connection` applied to the old same-direction
  connection of the entry (None when there was none: close of NULL is a
  no-op returning false). -/
  | closedOld (c : Option Nat)
  /-- The new connection stored into the entry. -/
  | installed (c : Nat)
deriving DecidableEq, Repr

/-- Lines 596–602 of accept_socket_async_cb:
`conn_data = _nns_edge_add_conn (eh, client_id); if (conn_data) {
_nns_edge_close_connection (conn_data->src_conn); conn_data->src_conn = conn; }`.
The in-place pointer mutation is modelled by re-inserting the updated entry
at the same key.  `Option.none` = `conn_data` was NULL (caller then closes
the new connection instead). -/
def install_src_conn (allocOk : Bool) (eh : nns_edge_handle_s)
    (client_id conn : Nat) : Option (nns_edge_handle_s × List HsAct) :=
  match _nns_edge_add_conn allocOk eh client_id with
  | Option.none => Option.none
  | some (d, eh') =>
    some ({ eh' with
        conn_table := tableInsert eh'.conn_table (GUINT_TO_POINTER client_id)
          { d with src_conn := some conn } },
      [HsAct.closedOld d.src_conn, HsAct.installed conn])

/-- Lines 1026–1032 of _nns_edge_tcp_connect: the sink-direction twin of
`install_src_conn`. -/
def install_sink_conn (allocOk : Bool) (eh : nns_edge_handle_s)
    (client_id conn : Nat) : Option (nns_edge_handle_s × List HsAct) :=
  match _nns_edge_add_conn allocOk eh client_id with
  | Option.none => Option.none
  | some (d, eh') =>
    some ({ eh' with
        conn_table := tableInsert eh'.conn_table (GUINT_TO_POINTER client_id)
          { d with sink_conn := some conn } },
      [HsAct.closedOld d.sink_conn, HsAct.installed conn])

/-- `_nns_edge_check_connection (conn)`: NULL gives false; otherwise the
socket condition / available-bytes test, an oracle per connection token. -/
def _nns_edge_check_connection (alive : Nat → Bool) : Option Nat → Bool
  | Option.none => false
  | some c => alive c

/-- `nns_edge_request (edge_h, data_h, user_data)` up to the send: the NULL /
data-validity / magic checks, then
`conn_data = _nns_edge_get_conn (eh, eh->client_id)` — whose result is
dereferenced as `conn_data->sink_conn` WITHOUT a NULL check (outer
`Option.none` = that undefined behaviour) — then the liveness check, then
`_nns_edge_cmd_send` whose status is the oracle `sendRes`. -/
def nns_edge_request (alive : Nat → Bool) (sendRes : NnsErr)
    (eh : Option nns_edge_handle_s) (dataValid : Bool) : Option NnsErr :=
  match eh with
  | Option.none => some NnsErr.invalidParam
  | some eh =>
    if !dataValid then some NnsErr.invalidParam
    else if !eh.magicValid then some NnsErr.invalidParam
    else
      match _nns_edge_get_conn eh eh.client_id with
      | Option.none => Option.none
      | some conn_data =>
        if !_nns_edge_check_connection alive conn_data.sink_conn then
          some NnsErr.connFailure
        else some sendRes

/-- `nns_edge_respond (edge_h, data_h)` up to the send: NULL / data-validity
/ magic checks, the `client_id` metadata lookup (`Option.none` =
`nns_edge_data_get_info` failed), the table lookup WITH its NULL check, and
then directly `_nns_edge_cmd_send (conn_data->sink_conn, &cmd)` — no
liveness check on this path; a NULL `sink_conn` is caught only by
`_nns_edge_cmd_send`'s own parameter check. -/
def nns_edge_respond (sendRes : NnsErr) (eh : Option nns_edge_handle_s)
    (dataValid : Bool) (clientIdMeta : Option Nat) : Option NnsErr :=
  match eh with
  | Option.none => some NnsErr.invalidParam
  | some eh =>
    if !dataValid then some NnsErr.invalidParam
    else if !eh.magicValid then some NnsErr.invalidParam
    else
      match clientIdMeta with
      | Option.none => some NnsErr.invalidParam
      | some cid =>
        match _nns_edge_get_conn eh cid with
        | Option.none => some NnsErr.invalidParam
        | some conn_data =>
          match conn_data.sink_conn with
          | Option.none => some NnsErr.invalidParam
          | some _ => some sendRes

/-- The environment of one `_nns_edge_tcp_connect` call: which allocations
succeed, whether the socket connect succeeds, the header of the received
capability frame (`Option.none` = the receive failed), the status the
CAPABILITY event callback returns, and whether the reply-frame send
succeeds. -/
structure ConnectEnv where
  allocConn : Bool
  allocConnData : Bool
  socketOk : Bool
  capReceived : Option nns_edge_cmd_info_s
  eventCbRet : NnsErr
  sendOk : Bool

/-- Observable steps of `_nns_edge_tcp_connect`. -/
inductive TcpAct where
  /-- `_nns_edge_cmd_send` of the reply frame, with its command kind
  (cmdHOST_INFO when the capability was accepted, cmdERROR when the event
  callback rejected it). -/
  | sentFrame (cmd : Nat)
  /-- `_nns_edge_close_connection` on the newly created connection
  (the `!done` error path). -/
  | closedConn
  /-- `_nns_edge_close_connection` on the table entry's old sink connection. -/
  | closedOldSink (c : Option Nat)
  /-- `conn_data->sink_conn = conn`. -/
  | registeredSink (c : Nat)
deriving DecidableEq, Repr

/-- `_nns_edge_tcp_connect (eh, ip, port)` (lines 959–1041): allocate the
connection, dial, receive the peer's CAPABILITY frame, invoke the event
callback on it; on rejection build an ERROR frame, on acceptance a HOST_INFO
frame with the local address; send that frame; then — in BOTH cases — fall
through to `_nns_edge_add_conn`, close the entry's old sink connection,
register the new one and return NNS_EDGE_ERROR_NONE; only when an I/O step
or an allocation failed is the connection closed and
NNS_EDGE_ERROR_CONNECTION_FAILURE returned.  `newConn` is the token of the
connection this call creates. -/
def _nns_edge_tcp_connect (env : ConnectEnv) (eh : nns_edge_handle_s)
    (newConn : Nat) : NnsErr × nns_edge_handle_s × List TcpAct :=
  if !env.allocConn then (NnsErr.connFailure, eh, [])
  else if !env.socketOk then (NnsErr.connFailure, eh, [TcpAct.closedConn])
  else
    match env.capReceived with
    | Option.none => (NnsErr.connFailure, eh, [TcpAct.closedConn])
    | some info =>
      if info.cmd ≠ cmdCAPABILITY then
        (NnsErr.connFailure, eh, [TcpAct.closedConn])
      else
        (fun eh1 reply =>
          if !env.sendOk then
            (NnsErr.connFailure, eh1, [TcpAct.sentFrame reply, TcpAct.closedConn])
          else
            match _nns_edge_add_conn env.allocConnData eh1 info.client_id with
            | Option.none =>
              (NnsErr.connFailure, eh1,
                [TcpAct.sentFrame reply, TcpAct.closedConn])
            | some (d, eh2) =>
              (NnsErr.ok,
                { eh2 with
                  conn_table := tableInsert eh2.conn_table
                    (GUINT_TO_POINTER info.client_id)
                    { d with sink_conn := some newConn } },
                [TcpAct.sentFrame reply, TcpAct.closedOldSink d.sink_conn,
                  TcpAct.registeredSink newConn]))
        { eh with client_id := info.client_id }
        (if env.eventCbRet ≠ NnsErr.ok then cmdERROR else cmdHOST_INFO)

/-- `g_strrstr (host, ":")` for the single-character needle: index of the
last occurrence. -/
def lastIndexOf (c : Char) : List Char → Option Nat
  | [] => Option.none
  | x :: xs =>
    match lastIndexOf c xs with
    | some i => some (i + 1)
    | Option.none => if x = c then some 0 else Option.none

/-- ASCII whitespace skipped by `g_ascii_strtoll` (C-locale `isspace`). -/
def isSpaceC (c : Char) : Bool :=
  c = ' ' || c = '\t' || c = '\n' || c = '\x0b' || c = '\x0c' || c = '\r'

/-- Base-10 digit accumulation of `g_ascii_strtoll`, stopping at the first
non-digit. -/
def digitsToNat : List Char → Nat → Nat
  | [], acc => acc
  | c :: cs, acc =>
    if c.isDigit then digitsToNat cs (acc * 10 + (c.toNat - '0'.toNat))
    else acc

/-- `g_ascii_strtoll (str, NULL, 10)`: skip C-locale whitespace, optional
sign, then base-10 digits (no digits gives 0).  The int64 overflow clamping
is not modelled: it only differs on magnitudes ≥ 2^63, irrelevant to every
claim here. -/
def g_ascii_strtoll (s : List Char) : Int :=
  match s.dropWhile isSpaceC with
  | '-' :: rest => - (digitsToNat rest 0 : Int)
  | '+' :: rest => (digitsToNat rest 0 : Int)
  | s1 => (digitsToNat s1 0 : Int)

/-- The `(int)` cast applied to the `g_ascii_strtoll` result: truncation to
a signed 32-bit value. -/
def toInt32 (x : Int) : Int :=
  if x.emod (2 ^ 32) < 2 ^ 31 then x.emod (2 ^ 32) else x.emod (2 ^ 32) - 2 ^ 32

/-- `_parse_host_str (host, &ip, &port)`: if the host string has no ':' the
output parameters keep their caller-initialized values (the accept path
passes `connected_ip = NULL`, `connected_port = 0`); otherwise everything
before the LAST ':' becomes the ip (`g_strndup (host, p - host)`) and the
rest is parsed as the port. -/
def _parse_host_str (host : List Char) (ip : Option (List Char)) (port : Int) :
    Option (List Char) × Int :=
  match lastIndexOf ':' host with
  | Option.none => (ip, port)
  | some i =>
    (some (host.take i), toInt32 (g_ascii_strtoll (host.drop (i + 1))))

/-! ## Helper lemmas: little-endian fields -/

theorem bytesLE_length (w n : Nat) : (bytesLE w n).length = w := by
  induction w generalizing n with
  | zero => rfl
  | succ w ih => simp [bytesLE, ih]

theorem bytesLE_take (w n : Nat) (rest : List Nat) :
    List.take w (bytesLE w n ++ rest) = bytesLE w n := by
  induction w generalizing n with
  | zero => rfl
  | succ w ih => simp [bytesLE, List.take_succ_cons, ih]

theorem bytesLE_drop (w n : Nat) (rest : List Nat) :
    List.drop w (bytesLE w n ++ rest) = rest := by
  induction w generalizing n with
  | zero => rfl
  | succ w ih => simp [bytesLE, List.drop_succ_cons, ih]

theorem natLE_bytesLE (w n : Nat) (h : n < 256 ^ w) :
    natLE (bytesLE w n) = n := by
  induction w generalizing n with
  | zero =>
    simp only [bytesLE, natLE]
    omega
  | succ w ih =>
    have hd : n / 256 < 256 ^ w := by
      rw [Nat.div_lt_iff_lt_mul (by norm_num)]
      calc n < 256 ^ (w + 1) := h
        _ = 256 ^ w * 256 := by ring
    simp only [bytesLE, natLE, ih (n / 256) hd]
    omega

theorem takeField_bytesLE (w n : Nat) (h : n < 256 ^ w) (rest : List Nat) :
    takeField w (bytesLE w n ++ rest) = (n, rest) := by
  simp [takeField, bytesLE_take, bytesLE_drop, natLE_bytesLE w n h]

theorem takeField_pad4 (rest : List Nat) :
    takeField 4 (pad4 ++ rest) = (0, rest) :=
  takeField_bytesLE 4 0 (by norm_num) rest

theorem take_append_eq {α : Type} (xs ys : List α) :
    List.take xs.length (xs ++ ys) = xs := by
  induction xs with
  | nil => rfl
  | cons a t ih => simp [List.take_succ_cons, ih]

theorem drop_append_eq {α : Type} (xs ys : List α) :
    List.drop xs.length (xs ++ ys) = ys := by
  induction xs with
  | nil => rfl
  | cons a t ih => simp [List.drop_succ_cons, ih]

theorem readSizes_encodeSizes (ss : List Nat) (rest : List Nat)
    (h : ∀ s ∈ ss, s < 256 ^ 8) :
    readSizes ss.length (encodeSizes ss ++ rest) = (ss, rest) := by
  induction ss with
  | nil => rfl
  | cons s tail ih =>
    have hs : s < 256 ^ 8 := h s (by simp)
    have ht : ∀ x ∈ tail, x < 256 ^ 8 := fun x hx => h x (by simp [hx])
    simp only [List.length_cons, encodeSizes, List.append_assoc, readSizes,
      bytesLE_take, bytesLE_drop, natLE_bytesLE 8 s hs, ih ht]

theorem readBufs_flatten (mem : List (List Nat)) (szs : List Nat)
    (h : List.Forall₂ (fun b s => List.length b = s) mem szs) :
    readBufs szs (flattenBufs mem) = (mem, []) := by
  induction h with
  | nil => rfl
  | @cons b s tailm tails hbs htail ih =>
    simp only [flattenBufs, readBufs, ← hbs, take_append_eq, drop_append_eq, ih]

theorem decode_info_encode (i : nns_edge_cmd_info_s) (rest : List Nat)
    (h : infoWF i) : decode_info (encode_info i ++ rest) = (i, rest) := by
  obtain ⟨h1, h2, h3, h4, h5⟩ := h
  simp only [decode_info, encode_info, List.append_assoc,
    takeField_bytesLE 4 i.cmd h1, takeField_pad4,
    takeField_bytesLE 8 i.client_id h2, takeField_bytesLE 4 i.num h3]
  rw [← h4, readSizes_encodeSizes i.mem_size rest h5]

/-- C5: for every well-formed frame (buffer count between 0 and
NNS_EDGE_DATA_LIMIT inclusive, advertised sizes matching the payload
buffers), decoding the byte stream produced by encoding the frame yields the
frame back exactly: same command kind, client (peer) identifier, buffer
count, per-buffer sizes and payload bytes.  The `num = 0` case is the
instance with `c.mem = []`, a header-only round trip. -/
theorem cmd_codec_round_trip (c : nns_edge_cmd_s) (h : cmdWF c) :
    decode_cmd (encode_cmd c) = c := by
  obtain ⟨hi, hnum, hmem⟩ := h
  have hd : decode_info (encode_info c.info ++ flattenBufs c.mem) =
      (c.info, flattenBufs c.mem) := decode_info_encode c.info _ hi
  simp only [decode_cmd, encode_cmd, hd, readBufs_flatten c.mem _ hmem]

/-- Witness for C5 at a concrete two-buffer frame. -/
theorem cmd_codec_round_trip_witness :
    cmdWF ⟨⟨cmdTRANSFER_DATA, 5, 2, [3, 2] ++ List.replicate 14 0⟩,
      [[9, 8, 7], [6, 5]]⟩ ∧
    decode_cmd (encode_cmd ⟨⟨cmdTRANSFER_DATA, 5, 2, [3, 2] ++ List.replicate 14 0⟩,
      [[9, 8, 7], [6, 5]]⟩) =
      ⟨⟨cmdTRANSFER_DATA, 5, 2, [3, 2] ++ List.replicate 14 0⟩,
        [[9, 8, 7], [6, 5]]⟩ :=
  ⟨by decide, cmd_codec_round_trip _ (by decide)⟩

/-! ## Helper lemmas: the retry-until-complete send loop -/

theorem send_raw_full (size : Nat) :
    ∀ (steps : List Int) (sent f : Nat) (rest : List Int), sent ≤ size →
      _send_raw_data size sent steps = some (true, f, rest) → f = size := by
  intro steps
  induction steps with
  | nil =>
    intro sent f rest hle h
    simp only [_send_raw_data] at h
    by_cases hs : size ≤ sent
    · rw [if_pos hs] at h
      simp only [Option.some.injEq, Prod.mk.injEq] at h
      omega
    · rw [if_neg hs] at h
      exact absurd h (by simp)
  | cons r tail ih =>
    intro sent f rest hle h
    simp only [_send_raw_data] at h
    by_cases hs : size ≤ sent
    · rw [if_pos hs] at h
      simp only [Option.some.injEq, Prod.mk.injEq] at h
      omega
    · rw [if_neg hs] at h
      by_cases hz : r = 0
      · rw [if_pos hz] at h
        simp at h
      · rw [if_neg hz] at h
        by_cases hneg : r < 0
        · rw [if_pos hneg] at h
          simp at h
        · rw [if_neg hneg] at h
          exact ih _ f rest (by omega) h

theorem send_raw_fail_lt (size : Nat) :
    ∀ (steps : List Int) (sent f : Nat) (rest : List Int),
      _send_raw_data size sent steps = some (false, f, rest) → f < size := by
  intro steps
  induction steps with
  | nil =>
    intro sent f rest h
    simp only [_send_raw_data] at h
    by_cases hs : size ≤ sent
    · rw [if_pos hs] at h; simp at h
    · rw [if_neg hs] at h; exact absurd h (by simp)
  | cons r tail ih =>
    intro sent f rest h
    simp only [_send_raw_data] at h
    by_cases hs : size ≤ sent
    · rw [if_pos hs] at h; simp at h
    · rw [if_neg hs] at h
      by_cases hz : r = 0
      · rw [if_pos hz] at h
        simp only [Option.some.injEq, Prod.mk.injEq] at h
        omega
      · rw [if_neg hz] at h
        by_cases hneg : r < 0
        · rw [if_pos hneg] at h
          simp only [Option.some.injEq, Prod.mk.injEq] at h
          omega
        · rw [if_neg hneg] at h
          exact ih _ f rest h

theorem sendPieces_spec :
    ∀ (szs : List Nat) (steps : List Int) (e : NnsErr) (d : Nat)
      (rest : List Int), sendPieces szs steps = some (e, d, rest) →
      (e = NnsErr.ok ∨ e = NnsErr.ioError) ∧ (e = NnsErr.ok ↔ d = szs.sum) := by
  intro szs
  induction szs with
  | nil =>
    intro steps e d rest h
    simp only [sendPieces, Option.some.injEq, Prod.mk.injEq] at h
    obtain ⟨he, hd, -⟩ := h
    subst he; subst hd
    simp
  | cons sz tail ih =>
    intro steps e d rest h
    simp only [sendPieces] at h
    cases hsr : _send_raw_data sz 0 steps with
    | none => simp [hsr] at h
    | some v =>
      obtain ⟨b, d0, rest0⟩ := v
      cases b with
      | false =>
        simp only [hsr, Option.some.injEq, Prod.mk.injEq] at h
        obtain ⟨he, hd, -⟩ := h
        subst he; subst hd
        have hlt : d0 < sz := send_raw_fail_lt sz steps 0 d0 rest0 hsr
        constructor
        · exact Or.inr rfl
        · constructor
          · intro hfalse; exact absurd hfalse (by simp)
          · intro hsum
            have : sz + tail.sum ≤ d0 := by
              rw [List.sum_cons] at hsum
              omega
            omega
      | true =>
        have hd0 : d0 = sz := send_raw_full sz steps 0 d0 rest0 (by omega) hsr
        simp only [hsr] at h
        cases hsp : sendPieces tail rest0 with
        | none => simp [hsp] at h
        | some w =>
          obtain ⟨e1, d1, rest1⟩ := w
          simp only [hsp, Option.some.injEq, Prod.mk.injEq] at h
          obtain ⟨he, hd, -⟩ := h
          subst he; subst hd
          obtain ⟨hkind, hiff⟩ := ih rest0 e1 d1 rest1 hsp
          refine ⟨hkind, ?_, ?_⟩
          · intro hok
            have := hiff.mp hok
            rw [List.sum_cons]
            omega
          · intro hsum
            apply hiff.mpr
            rw [List.sum_cons] at hsum
            omega

/-- C7: the send path of the Wire Codec.  (1) `_send_raw_data` succeeds only
after the full requested byte count of its piece went out (partial writes are
retried until complete).  (2) `_nns_edge_cmd_send` — which by definition
writes the header piece first and then the `num` buffers in order — can only
return NNS_EDGE_ERROR_NONE or NNS_EDGE_ERROR_IO, and it returns
NNS_EDGE_ERROR_NONE exactly when every byte of the header and of all buffers
was delivered.  (3) If the socket signals closure or error already in the
header piece, the whole frame is abandoned immediately:
NNS_EDGE_ERROR_IO with the transport oracle exactly where the failure left
it — no later buffer is retried or even attempted. -/
theorem cmd_send_full_transfer :
    (∀ (size : Nat) (steps : List Int) (f : Nat) (rest : List Int),
      _send_raw_data size 0 steps = some (true, f, rest) → f = size) ∧
    (∀ (conn : Unit) (cmd : nns_edge_cmd_s) (steps : List Int) (e : NnsErr)
      (d : Nat) (rest : List Int),
      _nns_edge_cmd_send (some conn) cmd steps = some (e, d, rest) →
      (e = NnsErr.ok ∨ e = NnsErr.ioError) ∧
        (e = NnsErr.ok ↔
          d = headerSize + (List.take cmd.info.num cmd.info.mem_size).sum)) ∧
    (∀ (cmd : nns_edge_cmd_s) (steps : List Int) (d : Nat) (rest : List Int),
      _send_raw_data headerSize 0 steps = some (false, d, rest) →
      _nns_edge_cmd_send (some ()) cmd steps = some (NnsErr.ioError, d, rest)) := by
  refine ⟨fun size steps f rest h => send_raw_full size steps 0 f rest (by omega) h,
    ?_, ?_⟩
  · intro conn cmd steps e d rest h
    simp only [_nns_edge_cmd_send] at h
    obtain ⟨hkind, hiff⟩ :=
      sendPieces_spec (headerSize :: List.take cmd.info.num cmd.info.mem_size)
        steps e d rest h
    rw [List.sum_cons] at hiff
    exact ⟨hkind, hiff⟩
  · intro cmd steps d rest h
    simp only [_nns_edge_cmd_send, sendPieces, h]

/-- Witness for C7: a frame with one 5-byte buffer over a transport that
splits the header into 100 + 52 bytes and the buffer into 2 + 3 bytes still
delivers all 157 bytes and succeeds. -/
theorem cmd_send_full_transfer_witness :
    _nns_edge_cmd_send (some ())
      ⟨⟨cmdTRANSFER_DATA, 5, 1, [5] ++ List.replicate 15 0⟩, [[1, 2, 3, 4, 5]]⟩
      [100, 52, 2, 3] = some (NnsErr.ok, 157, []) ∧
    (NnsErr.ok = NnsErr.ok ↔
      157 = headerSize +
        (List.take 1 ([5] ++ List.replicate 15 0)).sum) :=
  ⟨by decide,
    (cmd_send_full_transfer.2.1 ()
      ⟨⟨cmdTRANSFER_DATA, 5, 1, [5] ++ List.replicate 15 0⟩, [[1, 2, 3, 4, 5]]⟩
      [100, 52, 2, 3] NnsErr.ok 157 [] (by decide)).2⟩

/-! ## Helper lemmas: the receive buffer loop and its rollback -/

theorem set_getElem? {α : Type} (l : List α) (n i : Nat) (a : α) :
    (l.set n a)[i]? = if n = i ∧ n < l.length then some a else l[i]? := by
  induction l generalizing n i with
  | nil => simp
  | cons x t ih =>
    cases n with
    | zero =>
      cases i with
      | zero => simp
      | succ j => simp
    | succ m =>
      cases i with
      | zero => simp
      | succ j =>
        simp only [List.set_cons_succ, List.getElem?_cons_succ,
          List.length_cons, ih]
        by_cases hm : m = j
        · subst hm
          by_cases hl : m < t.length
          · simp [hl]
          · simp [hl]
        · simp [hm]

theorem clearRange_length (n : Nat) (mem : MemSlots) :
    (clearRange n mem).length = mem.length := by
  induction n with
  | zero => rfl
  | succ k ih => simp [clearRange, List.length_set, ih]

theorem clearRange_getElem? (n : Nat) (mem : MemSlots) (i : Nat) :
    (clearRange n mem)[i]? =
      if i < n ∧ i < mem.length then some Option.none else mem[i]? := by
  induction n with
  | zero => simp [clearRange]
  | succ k ih =>
    simp only [clearRange, set_getElem?, clearRange_length, ih]
    split_ifs <;> first | rfl | omega

theorem recvLoop_fail (o : RecvOracle) (sizes : List Nat)
    (hsz : sizes.length = NNS_EDGE_DATA_LIMIT) :
    ∀ (j n rem : Nat) (mem : MemSlots), j < rem →
      n + rem ≤ NNS_EDGE_DATA_LIMIT → mem.length = NNS_EDGE_DATA_LIMIT →
      (∀ i, i < j → o.allocOk (n + i) = true ∧ o.readOk (n + i) = true) →
      (o.allocOk (n + j) = false ∨
        (o.allocOk (n + j) = true ∧ o.readOk (n + j) = false)) →
      ∃ mem' : MemSlots,
        recvLoop o sizes n rem mem =
          some ((if o.allocOk (n + j) then NnsErr.ioError else NnsErr.outOfMemory),
            (if o.allocOk (n + j) then n + j + 1 else n + j), mem') ∧
        mem'.length = NNS_EDGE_DATA_LIMIT ∧
        (∀ i, i < n ∨ n + j < i → mem'[i]? = mem[i]?) ∧
        (o.allocOk (n + j) = false → mem'[n + j]? = some Option.none) := by
  intro j
  induction j with
  | zero =>
    intro n rem mem hjr hbound hlen hpre hfail
    obtain ⟨r, rfl⟩ : ∃ r, rem = r + 1 := ⟨rem - 1, by omega⟩
    have hn : n < sizes.length := by omega
    have hsome : sizes[n]? = some sizes[n] := List.getElem?_eq_getElem hn
    rcases hfail with halloc | ⟨halloc, hread⟩
    · rw [Nat.add_zero] at halloc
      refine ⟨mem.set n Option.none, ?_, ?_, ?_, ?_⟩
      · simp only [recvLoop, hsome, halloc, Nat.add_zero]
        simp
      · simp [hlen]
      · intro i hi
        rw [set_getElem?]
        have : ¬(n = i ∧ n < mem.length) := by omega
        rw [if_neg this]
      · intro _
        rw [Nat.add_zero, set_getElem?]
        rw [if_pos ⟨rfl, by omega⟩]
    · rw [Nat.add_zero] at halloc hread
      refine ⟨mem.set n (some sizes[n]), ?_, ?_, ?_, ?_⟩
      · simp only [recvLoop, hsome, halloc, hread, Nat.add_zero]
        simp
      · simp [hlen]
      · intro i hi
        rw [set_getElem?]
        have : ¬(n = i ∧ n < mem.length) := by omega
        rw [if_neg this]
      · intro habs
        rw [Nat.add_zero] at habs
        rw [habs] at halloc
        exact absurd halloc (by simp)
  | succ jj ih =>
    intro n rem mem hjr hbound hlen hpre hfail
    obtain ⟨r, rfl⟩ : ∃ r, rem = r + 1 := ⟨rem - 1, by omega⟩
    have hn : n < sizes.length := by omega
    have hsome : sizes[n]? = some sizes[n] := List.getElem?_eq_getElem hn
    obtain ⟨ha0, hr0⟩ := hpre 0 (by omega)
    rw [Nat.add_zero] at ha0 hr0
    have hshift : n + (jj + 1) = n + 1 + jj := by omega
    rw [hshift] at hfail
    obtain ⟨mem', heq, hlen', hout, hoom⟩ :=
      ih (n + 1) r (mem.set n (some sizes[n])) (by omega) (by omega)
        (by simp [hlen])
        (fun i hi => by
          have := hpre (i + 1) (by omega)
          rwa [show n + (i + 1) = n + 1 + i by omega] at this)
        hfail
    refine ⟨mem', ?_, hlen', ?_, ?_⟩
    · rw [hshift]
      simp only [recvLoop, hsome, ha0, hr0]
      simp only [ha0, hr0, if_true]
      exact heq
    · intro i hi
      have h1 : mem'[i]? = (mem.set n (some sizes[n]))[i]? := by
        apply hout
        omega
      rw [h1, set_getElem?]
      have : ¬(n = i ∧ n < mem.length) := by omega
      rw [if_neg this]
    · intro habs
      rw [hshift] at habs ⊢
      exact hoom habs

/-- C4: whenever the buffer loop of `_nns_edge_cmd_receive` fails at some
buffer `k` — the `malloc` at `k` failing (NNS_EDGE_ERROR_OUT_OF_MEMORY) or
the read into buffer `k` failing (NNS_EDGE_ERROR_IO) after all earlier
buffers succeeded — the returned slot array has every slot touched by this
frame (0 through `k`) equal to NULL: each buffer already allocated was freed
and its slot cleared by the rollback loop (the failed-read slot `k` is
covered because the logging statement's `n++` raises the cleanup bound to
`k + 1`; the failed-malloc slot `k` was already NULL), and every slot past
`k` is exactly as the caller left it — no partially-filled frame is visible. -/
theorem cmd_receive_failure_rolls_back (o : RecvOracle)
    (info : nns_edge_cmd_info_s) (mem0 : MemSlots) (k : Nat)
    (hsz : info.mem_size.length = NNS_EDGE_DATA_LIMIT)
    (hnum : info.num ≤ NNS_EDGE_DATA_LIMIT)
    (hlen : mem0.length = NNS_EDGE_DATA_LIMIT)
    (hk : k < info.num)
    (hpre : ∀ i, i < k → o.allocOk i = true ∧ o.readOk i = true)
    (hfail : o.allocOk k = false ∨ (o.allocOk k = true ∧ o.readOk k = false)) :
    ∃ memF : MemSlots,
      _nns_edge_cmd_receive o (some info) mem0 =
        some ((if o.allocOk k then NnsErr.ioError else NnsErr.outOfMemory),
          some info, memF) ∧
      (∀ i, i ≤ k → memF[i]? = some Option.none) ∧
      (∀ i, k < i → memF[i]? = mem0[i]?) := by
  obtain ⟨mem', heq, hlen', hout, hoom⟩ :=
    recvLoop_fail o info.mem_size hsz k 0 info.num mem0 hk (by omega) hlen
      (fun i hi => by simpa using hpre i hi)
      (by simpa using hfail)
  rw [Nat.zero_add] at heq hout hoom
  cases halloc : o.allocOk k with
  | false =>
    rw [halloc] at heq
    simp only [if_false, Bool.false_eq_true] at heq
    refine ⟨clearRange k mem', ?_, ?_, ?_⟩
    · simp only [_nns_edge_cmd_receive, heq, halloc]
      simp
    · intro i hik
      rw [clearRange_getElem?]
      by_cases hlt : i < k
      · rw [if_pos ⟨hlt, by omega⟩]
      · have hi : i = k := by omega
        subst hi
        rw [if_neg (by omega)]
        exact hoom halloc
    · intro i hik
      rw [clearRange_getElem?]
      rw [if_neg (by omega)]
      apply hout
      omega
  | true =>
    rw [halloc] at heq
    simp only [if_true] at heq
    refine ⟨clearRange (k + 1) mem', ?_, ?_, ?_⟩
    · simp only [_nns_edge_cmd_receive, heq, halloc]
      simp
    · intro i hik
      rw [clearRange_getElem?]
      rw [if_pos ⟨by omega, by omega⟩]
    · intro i hik
      rw [clearRange_getElem?]
      rw [if_neg (by omega)]
      apply hout
      omega

/-- Witness for C4: three one-byte... rather 7-byte buffers, the read of
buffer 1 fails; slots 0 and 1 end NULL, the untouched caller slots 2..15
keep their prior contents, and the call returns NNS_EDGE_ERROR_IO. -/
theorem cmd_receive_failure_rolls_back_witness :
    ∃ memF : MemSlots,
      _nns_edge_cmd_receive ⟨fun _ => true, fun i => decide (i ≠ 1)⟩
          (some ⟨cmdTRANSFER_DATA, 0, 3, List.replicate 16 7⟩)
          (List.replicate 16 (some 99)) =
        some (NnsErr.ioError, some ⟨cmdTRANSFER_DATA, 0, 3, List.replicate 16 7⟩,
          memF) ∧
      (∀ i, i ≤ 1 → memF[i]? = some Option.none) ∧
      (∀ i, 1 < i → memF[i]? =
        (List.replicate 16 (some 99) : MemSlots)[i]?) :=
  cmd_receive_failure_rolls_back ⟨fun _ => true, fun i => decide (i ≠ 1)⟩
    ⟨cmdTRANSFER_DATA, 0, 3, List.replicate 16 7⟩ (List.replicate 16 (some 99))
    1 (by decide) (by decide) (by decide) (by decide)
    (fun i hi => by
      constructor
      · rfl
      · simp only [decide_eq_true_eq]
        omega)
    (Or.inr ⟨rfl, by decide⟩)

/-- C2 (evaluation of the code at the violating input): `_nns_edge_cmd_receive`
performs NO check of the advertised buffer count against
NNS_EDGE_DATA_LIMIT.  First conjunct: with `num = NNS_EDGE_DATA_LIMIT + 1`
the loop allocates all NNS_EDGE_DATA_LIMIT in-bounds buffers and then
indexes `mem_size[NNS_EDGE_DATA_LIMIT]` / `mem[NNS_EDGE_DATA_LIMIT]` past
the fixed arrays — undefined behaviour (the model's outer `Option.none`) —
instead of rejecting the frame before allocation.  Second conjunct: the same
oracle with `num = NNS_EDGE_DATA_LIMIT` runs to completion and allocates
every buffer, showing no rejection happens on the way. -/
theorem cmd_receive_overflow_num_out_of_bounds :
    _nns_edge_cmd_receive ⟨fun _ => true, fun _ => true⟩
      (some ⟨cmdTRANSFER_DATA, 0, NNS_EDGE_DATA_LIMIT + 1,
        List.replicate NNS_EDGE_DATA_LIMIT 1⟩)
      (List.replicate NNS_EDGE_DATA_LIMIT Option.none) = Option.none ∧
    _nns_edge_cmd_receive ⟨fun _ => true, fun _ => true⟩
      (some ⟨cmdTRANSFER_DATA, 0, NNS_EDGE_DATA_LIMIT,
        List.replicate NNS_EDGE_DATA_LIMIT 1⟩)
      (List.replicate NNS_EDGE_DATA_LIMIT Option.none) =
      some (NnsErr.ok,
        some ⟨cmdTRANSFER_DATA, 0, NNS_EDGE_DATA_LIMIT,
          List.replicate NNS_EDGE_DATA_LIMIT 1⟩,
        List.replicate NNS_EDGE_DATA_LIMIT (some 1)) := by
  decide

/-! ## Handshake, request/respond and close -/

/-- C1 (evaluation of the code at the violating input): a connect-side
handshake in which every I/O step succeeds but the CAPABILITY event callback
returns non-success (NNS_EDGE_ERROR_INVALID_PARAMETER).  The code does send
the ERROR frame — but then falls through: it registers the new socket as the
sink (outbound) Connection for the peer identifier 42 taken from the
capability frame and returns NNS_EDGE_ERROR_NONE, and the action trace
contains no close of the new connection (no `TcpAct.closedConn`).  The only
conjunct of the claim the code satisfies is the ERROR frame itself. -/
theorem tcp_connect_capability_rejected_registers_sink :
    _nns_edge_tcp_connect
      ⟨true, true, true, some ⟨cmdCAPABILITY, 42, 1, List.replicate 16 4⟩,
        NnsErr.invalidParam, true⟩
      ⟨true, 0, []⟩ 5 =
      (NnsErr.ok,
        ⟨true, 42, [(42, ⟨42, Option.none, some 5⟩)]⟩,
        [TcpAct.sentFrame cmdERROR, TcpAct.closedOldSink Option.none,
          TcpAct.registeredSink 5]) := by
  decide

/-- C3 (evaluation of the code at the violating input).  First conjunct:
`nns_edge_request` with a perfectly valid handle and data handle but an
empty connection table — `_nns_edge_get_conn` returns NULL and the code
dereferences `conn_data->sink_conn` without a NULL check: undefined
behaviour (`Option.none`), not the NNS_EDGE_ERROR_INVALID_PARAMETER the
claim requires.  Second conjunct: `nns_edge_respond` with a valid handle,
data and table entry goes straight to `_nns_edge_cmd_send` — its signature
has no liveness oracle at all because the code performs no
`_nns_edge_check_connection` on this path, so the ConnectionFailure case of
the claim is unreachable there. -/
theorem request_null_table_entry_dereference :
    nns_edge_request (fun _ => true) NnsErr.ok (some ⟨true, 7, []⟩) true =
      Option.none ∧
    nns_edge_respond NnsErr.ok
      (some ⟨true, 7, [(3, ⟨3, Option.none, some 1⟩)]⟩) true (some 3) =
      some NnsErr.ok := by
  decide

/-- C6 counterexample: for a concrete Connection owned by a running receiver
thread (socket and cancellable present, socket close succeeding), the actual
step sequence of `_nns_edge_close_connection` is
clear-running-flag, join, close-socket, release-token, free — and the
cancellation token is NEVER triggered, refuting the claimed order
"clears the running flag, triggers the cancellation token, joins the thread,
and only then closes the socket and releases the token". -/
theorem close_connection_never_cancels_token :
    (_nns_edge_close_connection true (some ⟨true, true, true⟩)).2 =
      [CloseAct.clearRunningFlag, CloseAct.joinThread, CloseAct.closeSocket,
        CloseAct.releaseToken, CloseAct.freeConn] ∧
    CloseAct.cancelToken ∉
      (_nns_edge_close_connection true (some ⟨true, true, true⟩)).2 := by
  decide

/-- C6 as amended: closing a NULL Connection is a safe no-op returning
false (which is how the table teardown may close both directions
unconditionally; the struct itself is freed by a successful close, so the
only repeatable close is the NULL one).  For a Connection owned by a
receiver thread, with socket and token present and the socket close
succeeding, close clears the running flag and joins the thread, and only
then closes the socket and releases the token — in that order — and never
triggers the cancellation token. -/
theorem close_connection_order (c : nns_edge_conn_s) (closeOk : Bool)
    (hr : c.running = true) (hs : c.hasSocket = true)
    (hc : c.hasCancellable = true) (hk : closeOk = true) :
    _nns_edge_close_connection closeOk (some c) =
      (true, [CloseAct.clearRunningFlag, CloseAct.joinThread,
        CloseAct.closeSocket, CloseAct.releaseToken, CloseAct.freeConn]) ∧
    CloseAct.cancelToken ∉ (_nns_edge_close_connection closeOk (some c)).2 ∧
    _nns_edge_close_connection closeOk Option.none =
      (false, ([] : List CloseAct)) := by
  subst hk
  refine ⟨?_, ?_, rfl⟩
  · simp [_nns_edge_close_connection, hr, hs, hc]
  · simp [_nns_edge_close_connection, hr, hs, hc]

/-- Witness for C6's amended theorem at the concrete running Connection. -/
theorem close_connection_order_witness :
    _nns_edge_close_connection true (some ⟨true, true, true⟩) =
      (true, [CloseAct.clearRunningFlag, CloseAct.joinThread,
        CloseAct.closeSocket, CloseAct.releaseToken, CloseAct.freeConn]) ∧
    CloseAct.cancelToken ∉
      (_nns_edge_close_connection true (some ⟨true, true, true⟩)).2 ∧
    _nns_edge_close_connection true Option.none =
      (false, ([] : List CloseAct)) :=
  close_connection_order ⟨true, true, true⟩ true rfl rfl rfl rfl

/-! ## Helper lemmas: the connection table -/

theorem tableInsert_overwrite (t : List (Nat × nns_edge_conn_data_s))
    (key : Nat) (v w : nns_edge_conn_data_s) :
    tableInsert (tableInsert t key v) key w = tableInsert t key w := by
  induction t with
  | nil => simp [tableInsert]
  | cons p t ih =>
    obtain ⟨a, b⟩ := p
    by_cases h : a = key
    · simp [tableInsert, h]
    · simp [tableInsert, h, ih]

theorem tableLookup_wf (t : List (Nat × nns_edge_conn_data_s)) (key : Nat)
    (d : nns_edge_conn_data_s) (hwf : tableWF t)
    (h : tableLookup t key = some d) : d.id = key := by
  induction t with
  | nil => simp [tableLookup] at h
  | cons p t ih =>
    obtain ⟨a, b⟩ := p
    simp only [tableLookup] at h
    by_cases ha : a = key
    · rw [if_pos ha] at h
      have hbd : b = d := by simpa using h
      have hmem := hwf (a, b) (by simp)
      rw [← hbd]
      simpa [ha] using hmem
    · rw [if_neg ha] at h
      exact ih (fun p hp => hwf p (by simp [hp])) h

theorem tableWF_insert (t : List (Nat × nns_edge_conn_data_s)) (key : Nat)
    (d : nns_edge_conn_data_s) (hwf : tableWF t)
    (hd : d.id = key) : tableWF (tableInsert t key d) := by
  induction t with
  | nil =>
    intro p hp
    simp only [tableInsert, List.mem_singleton] at hp
    subst hp
    exact hd
  | cons q t ih =>
    obtain ⟨a, b⟩ := q
    intro p hp
    simp only [tableInsert] at hp
    by_cases ha : a = key
    · rw [if_pos ha] at hp
      rcases List.mem_cons.mp hp with rfl | hmem
      · exact hd
      · exact hwf p (by simp [hmem])
    · rw [if_neg ha] at hp
      rcases List.mem_cons.mp hp with rfl | hmem
      · exact hwf (a, b) (by simp)
      · exact ih (fun q hq => hwf q (by simp [hq])) p hmem

/-- C9: for every valid handle and 64-bit client identifier, the Connection
Table keeps the invariant that the entry reachable under an identifier
carries exactly that identifier in its `id` field: `_nns_edge_get_conn`
(a `g_hash_table_lookup` keyed by `GUINT_TO_POINTER (client_id)`, which on
the LP64 layout carries the full 64-bit id) returns an entry with
`id = client_id`, and `_nns_edge_add_conn` preserves the invariant, returns
an entry with `id = client_id`, and — when the identifier already has an
entry — returns exactly that entry with the handle unchanged: nothing is
created or replaced and the entry's src/sink Connections are untouched by
the add itself. -/
theorem conn_table_exact_id_invariant (eh : nns_edge_handle_s) (c : Nat)
    (hc : c < 2 ^ 64) (hv : eh.magicValid = true) (hwf : tableWF eh.conn_table) :
    (∀ d, _nns_edge_get_conn eh c = some d → d.id = c) ∧
    (∀ allocOk d eh', _nns_edge_add_conn allocOk eh c = some (d, eh') →
      tableWF eh'.conn_table ∧ d.id = c ∧
      (∀ d0, tableLookup eh.conn_table (GUINT_TO_POINTER c) = some d0 →
        d = d0 ∧ eh' = eh)) := by
  have hkey : GUINT_TO_POINTER c = c := Nat.mod_eq_of_lt hc
  constructor
  · intro d hd
    simp only [_nns_edge_get_conn, hv, if_true] at hd
    have := tableLookup_wf eh.conn_table (GUINT_TO_POINTER c) d hwf hd
    rw [hkey] at this
    exact this
  · intro allocOk d eh' hadd
    simp only [_nns_edge_add_conn, hv, if_true] at hadd
    cases hlk : tableLookup eh.conn_table (GUINT_TO_POINTER c) with
    | some dl =>
      simp only [hlk, Option.some.injEq, Prod.mk.injEq] at hadd
      obtain ⟨hd, heh⟩ := hadd
      refine ⟨?_, ?_, ?_⟩
      · rw [← heh]; exact hwf
      · rw [← hd]
        have := tableLookup_wf eh.conn_table (GUINT_TO_POINTER c) dl hwf hlk
        rw [hkey] at this
        exact this
      · intro d0 h0
        have hd0 : dl = d0 := by simpa using h0
        exact ⟨hd.symm.trans hd0, heh.symm⟩
    | none =>
      rw [hlk] at hadd
      cases allocOk with
      | false => simp at hadd
      | true =>
        simp only [if_true, Option.some.injEq, Prod.mk.injEq] at hadd
        obtain ⟨hd, heh⟩ := hadd
        refine ⟨?_, ?_, ?_⟩
        · rw [← heh]
          exact tableWF_insert eh.conn_table (GUINT_TO_POINTER c)
            ⟨c, Option.none, Option.none⟩ hwf hkey.symm
        · rw [← hd]
        · intro d0 h0
          exact absurd h0 (by simp)

/-- Witness for C9 at a one-entry concrete table. -/
theorem conn_table_exact_id_invariant_witness :
    (∀ d, _nns_edge_get_conn
        ⟨true, 0, [(5, ⟨5, Option.none, Option.none⟩)]⟩ 5 = some d →
      d.id = 5) ∧
    (∀ allocOk d eh',
      _nns_edge_add_conn allocOk
        ⟨true, 0, [(5, ⟨5, Option.none, Option.none⟩)]⟩ 5 = some (d, eh') →
      tableWF eh'.conn_table ∧ d.id = 5 ∧
      (∀ d0, tableLookup [(5, ⟨5, Option.none, Option.none⟩)]
          (GUINT_TO_POINTER 5) = some d0 →
        d = d0 ∧ eh' = ⟨true, 0, [(5, ⟨5, Option.none, Option.none⟩)]⟩)) :=
  conn_table_exact_id_invariant
    ⟨true, 0, [(5, ⟨5, Option.none, Option.none⟩)]⟩ 5 (by decide) rfl
    (by decide)

/-- C8: the table-update tail shared by both handshake directions, for a
valid handle with the `conn_data` allocation succeeding.  First conjunct:
when no entry exists for the peer identifier's key, both the accept side
(`install_src_conn`, lines 596–602) and the connect side
(`install_sink_conn`, lines 1026–1032) create the entry — first contact from
either direction.  Second conjunct: when an entry exists, the old Connection
of the SAME direction is passed to `_nns_edge_close_connection` and only
afterwards (`HsAct.closedOld` strictly precedes `HsAct.installed` in the
action trace) is the new Connection stored, while the opposite direction's
Connection of the entry is untouched. -/
theorem handshake_close_before_replace (eh : nns_edge_handle_s)
    (cid conn : Nat) (hv : eh.magicValid = true) :
    (tableLookup eh.conn_table (GUINT_TO_POINTER cid) = Option.none →
      install_src_conn true eh cid conn =
        some ({ eh with conn_table := (tableInsert eh.conn_table
            (GUINT_TO_POINTER cid) ⟨cid, some conn, Option.none⟩) },
          [HsAct.closedOld Option.none, HsAct.installed conn]) ∧
      install_sink_conn true eh cid conn =
        some ({ eh with conn_table := (tableInsert eh.conn_table
            (GUINT_TO_POINTER cid) ⟨cid, Option.none, some conn⟩) },
          [HsAct.closedOld Option.none, HsAct.installed conn])) ∧
    (∀ d, tableLookup eh.conn_table (GUINT_TO_POINTER cid) = some d →
      install_src_conn true eh cid conn =
        some ({ eh with conn_table := (tableInsert eh.conn_table
            (GUINT_TO_POINTER cid) { d with src_conn := some conn }) },
          [HsAct.closedOld d.src_conn, HsAct.installed conn]) ∧
      ({ d with src_conn := some conn }).sink_conn = d.sink_conn ∧
      install_sink_conn true eh cid conn =
        some ({ eh with conn_table := (tableInsert eh.conn_table
            (GUINT_TO_POINTER cid) { d with sink_conn := some conn }) },
          [HsAct.closedOld d.sink_conn, HsAct.installed conn]) ∧
      ({ d with sink_conn := some conn }).src_conn = d.src_conn) := by
  constructor
  · intro hnone
    constructor
    · simp [install_src_conn, _nns_edge_add_conn, hv, hnone,
        tableInsert_overwrite]
    · simp [install_sink_conn, _nns_edge_add_conn, hv, hnone,
        tableInsert_overwrite]
  · intro d hsome
    refine ⟨?_, rfl, ?_, rfl⟩
    · simp [install_src_conn, _nns_edge_add_conn, hv, hsome]
    · simp [install_sink_conn, _nns_edge_add_conn, hv, hsome]

/-- Witness for C8 at a concrete table holding one entry with both
directions present: the old same-direction connection (10 on the src side,
20 on the sink side) is closed before 7 replaces it, and the other
direction survives. -/
theorem handshake_close_before_replace_witness :
    install_src_conn true ⟨true, 0, [(3, ⟨3, some 10, some 20⟩)]⟩ 3 7 =
      some (⟨true, 0, [(3, ⟨3, some 7, some 20⟩)]⟩,
        [HsAct.closedOld (some 10), HsAct.installed 7]) ∧
    install_sink_conn true ⟨true, 0, [(3, ⟨3, some 10, some 20⟩)]⟩ 3 7 =
      some (⟨true, 0, [(3, ⟨3, some 10, some 7⟩)]⟩,
        [HsAct.closedOld (some 20), HsAct.installed 7]) := by
  have h := (handshake_close_before_replace
    ⟨true, 0, [(3, ⟨3, some 10, some 20⟩)]⟩ 3 7 rfl).2
    ⟨3, some 10, some 20⟩ (by decide)
  exact ⟨h.1, h.2.2.1⟩

/-! ## Host-string parsing -/

theorem lastIndexOf_eq_none (c : Char) :
    ∀ (l : List Char), c ∉ l → lastIndexOf c l = Option.none := by
  intro l
  induction l with
  | nil => intro _; rfl
  | cons x t ih =>
    intro h
    have hx : ¬(x = c) := fun hxc => h (by simp [hxc])
    have ht : c ∉ t := fun hmem => h (by simp [hmem])
    simp [lastIndexOf, ih ht, hx]

theorem lastIndexOf_append_last (a b : List Char) (c : Char) (hb : c ∉ b) :
    lastIndexOf c (a ++ c :: b) = some a.length := by
  induction a with
  | nil => simp [lastIndexOf, lastIndexOf_eq_none c b hb]
  | cons x t ih => simp [lastIndexOf, ih]

theorem drop_append_cons {α : Type} (a : List α) (x : α) (b : List α) :
    List.drop (a.length + 1) (a ++ x :: b) = b := by
  induction a with
  | nil => rfl
  | cons y t ih => simp [ih]

/-- C10: `_parse_host_str`.  If the host string contains no ':', both output
parameters keep their caller-initialized values (on the accept path,
`connected_ip = NULL` and `connected_port = 0`).  If the string decomposes
as `a ++ ':' :: b` with no ':' in `b` — i.e. the split is at the LAST
colon — the ip output becomes exactly the prefix `a` (which may itself
contain earlier colons) and the port output is `b` parsed by
`g_ascii_strtoll` and cast to int. -/
theorem parse_host_str_last_colon (host : List Char)
    (ip0 : Option (List Char)) (port0 : Int) :
    (':' ∉ host → _parse_host_str host ip0 port0 = (ip0, port0)) ∧
    (∀ a b, host = a ++ ':' :: b → ':' ∉ b →
      _parse_host_str host ip0 port0 =
        (some a, toInt32 (g_ascii_strtoll b))) := by
  constructor
  · intro h
    simp [_parse_host_str, lastIndexOf_eq_none ':' host h]
  · rintro a b rfl hb
    have htake : List.take a.length (a ++ ':' :: b) = a :=
      take_append_eq a (':' :: b)
    simp [_parse_host_str, lastIndexOf_append_last a b ':' hb, htake,
      drop_append_cons]

/-- Witness for C10: `"a:b:8"` splits at the last colon into ip `"a:b"` and
port 8, and a colon-free string leaves the outputs untouched. -/
theorem parse_host_str_last_colon_witness :
    _parse_host_str ['a', ':', 'b', ':', '8'] Option.none 0 =
      (some ['a', ':', 'b'], toInt32 (g_ascii_strtoll ['8'])) ∧
    _parse_host_str ['x'] (some ['y']) 7 = (some ['y'], 7) :=
  ⟨(parse_host_str_last_colon ['a', ':', 'b', ':', '8'] Option.none 0).2
      ['a', ':', 'b'] ['8'] rfl (by decide),
    (parse_host_str_last_colon ['x'] (some ['y']) 7).1 (by decide)⟩
